import Mathlib

/-!
Verification of the umDrive storage-and-metadata core.

The development shallowly embeds the service in `src/umdrive/umdrive.py`
(the variant with the fixed storage root `/app/storage`); the
`is_within_directory` function of the second variant
`src/umdrive/umDrive_Teste.py` is embedded as well, under the `Teste`
namespace.

Modelling conventions:
* werkzeug's `secure_filename` is embedded for a POSIX host
  (`os.sep = "/"`, `os.path.altsep = None`, `os.name != "nt"`); its first
  step `unicodedata.normalize("NFKD", ·).encode("ascii", "ignore")` is
  modelled as dropping non-ASCII code points, which is exact on ASCII
  input, and the downstream character filter keeps every property proved
  here insensitive to that choice.
* Paths are strings; `Path.resolve()` is pure `..`/`.` normalisation of an
  absolute path (no symlinks are present under the storage root).
* The storage root holds the uploaded regular files (a map from name to
  bytes) plus the one reserved document `metadata.json`; the document's
  content is either the serialization of a JSON dict (what `save_metadata`
  writes) or raw client bytes (after an upload named `metadata.json`
  overwrites it).
* JSON numerals are modelled as integers; `json.loads` on raw bytes is a
  fuel-based recursive-descent parser over the ASCII range, and
  `json.dumps(·, indent=2)` is embedded directly.
* Machine-level byte contents are `List Nat`.
-/

/-- JSON values as produced by Python's `json` module; numerals are modelled
as integers. -/
inductive Json where
  | null : Json
  | bool (b : Bool) : Json
  | num (n : Int) : Json
  | str (s : String) : Json
  | arr (elems : List Json) : Json
  | obj (members : List (String × Json)) : Json

/-- `isinstance(x, dict)`. -/
def Json.isObj : Json → Bool
  | .obj _ => true
  | _ => false

/-- `d.get(k)` on a string-keyed Python `dict`, modelled as an association
list with unique keys in insertion order. -/
def alGet {α : Type} : List (String × α) → String → Option α
  | [], _ => none
  | p :: rest, k => if p.1 = k then some p.2 else alGet rest k

/-- `d[k] = v`: overwrite the key in place when present, else append. -/
def alSet {α : Type} : List (String × α) → String → α → List (String × α)
  | [], k, v => [(k, v)]
  | p :: rest, k, v => if p.1 = k then (k, v) :: rest else p :: alSet rest k v

/-- `d.pop(k, None)` / `path.unlink()`: remove the key when present. -/
def alErase {α : Type} (l : List (String × α)) (k : String) : List (String × α) :=
  l.filter (fun p => p.1 != k)

/-- `d.setdefault(k, v)`: insert `v` only when the key is absent. -/
def alSetdefault {α : Type} (l : List (String × α)) (k : String) (v : α) :
    List (String × α) :=
  if (alGet l k).isSome then l else l ++ [(k, v)]

theorem alGet_alSet_self {α : Type} (l : List (String × α)) (k : String) (v : α) :
    alGet (alSet l k v) k = some v := by
  induction l with
  | nil => simp [alSet, alGet]
  | cons p rest ih =>
    by_cases h : p.1 = k
    · simp [alSet, h, alGet]
    · simp [alSet, h, alGet, ih]

theorem alGet_alSet_ne {α : Type} (l : List (String × α)) (k k' : String) (v : α)
    (hne : k' ≠ k) : alGet (alSet l k v) k' = alGet l k' := by
  have hkk : ¬k = k' := fun hh => hne hh.symm
  induction l with
  | nil => simp [alSet, alGet, hkk]
  | cons p rest ih =>
    by_cases h : p.1 = k
    · simp [alSet, h, alGet, hne, Ne.symm hne]
    · simp only [alSet, h, if_false, alGet, ih]

theorem alGet_alErase_self {α : Type} (l : List (String × α)) (k : String) :
    alGet (alErase l k) k = none := by
  induction l with
  | nil => rfl
  | cons p rest ih =>
    by_cases h : p.1 = k
    · have hb : (p.1 != k) = false := by simp [h]
      simp only [alErase, List.filter_cons, hb, Bool.false_eq_true, if_false]
      exact ih
    · have hb : (p.1 != k) = true := by simp [h]
      simp only [alErase, List.filter_cons, hb, if_true]
      simp only [alGet, h, if_false]
      exact ih

theorem alGet_append_right {α : Type} (l : List (String × α)) (k : String) (v : α)
    (h : alGet l k = none) : alGet (l ++ [(k, v)]) k = some v := by
  induction l with
  | nil => simp [alGet]
  | cons p rest ih =>
    by_cases hp : p.1 = k
    · simp [alGet, hp] at h
    · simp only [alGet, hp, if_false] at h
      simp only [List.cons_append, alGet, hp, if_false]
      exact ih h

/-- Whitespace for Python's `str.split()` (ASCII range). -/
def pyIsSpace (c : Char) : Bool :=
  c = ' ' || c = '\t' || c = '\n' || c = '\r' || c = Char.ofNat 11 || c = Char.ofNat 12

/-- The characters kept by werkzeug's `_filename_ascii_strip_re.sub("", ·)`:
the regex removes everything outside `A-Za-z0-9_.-`. -/
def isAllowedChar (c : Char) : Bool :=
  ('A' ≤ c && c ≤ 'Z') || ('a' ≤ c && c ≤ 'z') || ('0' ≤ c && c ≤ '9') ||
    c = '_' || c = '.' || c = '-'

/-- Helper for Python's `str.split()`: split on whitespace runs, dropping
empty chunks; `acc` is the current word reversed. -/
def splitWsAux : List Char → List Char → List (List Char)
  | [], acc => if acc.isEmpty then [] else [acc.reverse]
  | c :: cs, acc =>
    if pyIsSpace c then
      if acc.isEmpty then splitWsAux cs [] else acc.reverse :: splitWsAux cs []
    else splitWsAux cs (c :: acc)

/-- Python's `str.split()` with no argument. -/
def splitWs (l : List Char) : List (List Char) := splitWsAux l []

/-- The characters removed from both ends by `.strip("._")`. -/
def isDotUnd (c : Char) : Bool := c = '.' || c = '_'

/-- Python's `str.strip("._")`. -/
def stripDotUnd (l : List Char) : List Char :=
  ((l.dropWhile isDotUnd).reverse.dropWhile isDotUnd).reverse

/-- werkzeug's `secure_filename` on POSIX:
drop non-ASCII code points (`normalize("NFKD") + encode("ascii","ignore")`,
see the module comment), replace `os.sep` by a space, split on whitespace
and join with `"_"`, delete every character outside `A-Za-z0-9_.-`, and
strip `.` and `_` from both ends (the `os.name == "nt"` device-name branch
is not taken). -/
def secure_filename (filename : String) : String :=
  let ascii := filename.data.filter (fun c => decide (c.toNat < 128))
  let noSep := ascii.map (fun c => if c = '/' then ' ' else c)
  let joined := List.intercalate ['_'] (splitWs noSep)
  let kept := joined.filter isAllowedChar
  String.mk (stripDotUnd kept)

theorem mem_dropWhile {p : Char → Bool} {a : Char} :
    ∀ {l : List Char}, a ∈ l.dropWhile p → a ∈ l := by
  intro l
  induction l with
  | nil => intro h; simp at h
  | cons c cs ih =>
    intro h
    rw [List.dropWhile_cons] at h
    by_cases hp : p c
    · simp only [hp, if_true] at h
      exact List.mem_cons_of_mem _ (ih h)
    · simp only [hp, if_false] at h
      exact h

theorem dropWhile_head_false {p : Char → Bool} :
    ∀ {l : List Char} {c : Char} {r : List Char}, l.dropWhile p = c :: r → p c = false := by
  intro l
  induction l with
  | nil => intro c r h; simp at h
  | cons a t ih =>
    intro c r h
    rw [List.dropWhile_cons] at h
    by_cases hp : p a
    · simp only [hp, if_true] at h
      exact ih h
    · simp only [hp, if_false] at h
      cases h
      simpa using hp

theorem dropWhile_append_singleton {p : Char → Bool} {a : Char} (ha : p a = false) :
    ∀ (l : List Char), (l ++ [a]).dropWhile p = l.dropWhile p ++ [a] := by
  intro l
  induction l with
  | nil => simp [List.dropWhile_cons, ha]
  | cons c cs ih =>
    by_cases hp : p c
    · simp [List.dropWhile_cons, hp, ih]
    · simp [List.dropWhile_cons, hp]

theorem stripDotUnd_head {l : List Char} {c : Char} {r : List Char}
    (h : stripDotUnd l = c :: r) : isDotUnd c = false := by
  unfold stripDotUnd at h
  cases hf : l.dropWhile isDotUnd with
  | nil => rw [hf] at h; simp at h
  | cons a t =>
    have ha : isDotUnd a = false := dropWhile_head_false hf
    rw [hf, List.reverse_cons, dropWhile_append_singleton ha, List.reverse_append] at h
    simp only [List.reverse_cons, List.reverse_nil, List.nil_append, List.cons_append,
      List.singleton_append] at h
    cases h
    exact ha

theorem mem_stripDotUnd {l : List Char} {c : Char} (h : c ∈ stripDotUnd l) : c ∈ l := by
  unfold stripDotUnd at h
  rw [List.mem_reverse] at h
  have h1 := mem_dropWhile h
  rw [List.mem_reverse] at h1
  exact mem_dropWhile h1

theorem secure_filename_allowed (raw : String) :
    ∀ c ∈ (secure_filename raw).data, isAllowedChar c = true := by
  intro c hc
  have hc' : c ∈ stripDotUnd
      ((List.intercalate ['_'] (splitWs ((raw.data.filter
        (fun c => decide (c.toNat < 128))).map
          (fun c => if c = '/' then ' ' else c)))).filter isAllowedChar) := hc
  exact List.of_mem_filter (mem_stripDotUnd hc')

theorem secure_filename_head (raw : String) {c : Char} {r : List Char}
    (h : (secure_filename raw).data = c :: r) : isDotUnd c = false := by
  have h' : stripDotUnd
      ((List.intercalate ['_'] (splitWs ((raw.data.filter
        (fun c => decide (c.toNat < 128))).map
          (fun c => if c = '/' then ' ' else c)))).filter isAllowedChar) = c :: r := h
  exact stripDotUnd_head h'

theorem secure_filename_no_slash (raw : String) : '/' ∉ (secure_filename raw).data := by
  intro h
  have := secure_filename_allowed raw '/' h
  simp [isAllowedChar] at this

theorem secure_filename_ne_dot (raw : String) : secure_filename raw ≠ "." := by
  intro h
  have hd : (secure_filename raw).data = ['.'] := by rw [h]
  have := secure_filename_head raw hd
  simp [isDotUnd] at this

theorem secure_filename_ne_dotdot (raw : String) : secure_filename raw ≠ ".." := by
  intro h
  have hd : (secure_filename raw).data = ['.', '.'] := by rw [h]
  have := secure_filename_head raw hd
  simp [isDotUnd] at this

/-- The storage root of `umdrive.py`: `STORAGE_DIR = Path('/app/storage')`. -/
def STORAGE_DIR : String := "/app/storage"

/-- `METADATA_FILE.name`: the reserved document in the storage root. -/
def METADATA_NAME : String := "metadata.json"

/-- `STORAGE_DIR / name` for a relative `name`: pathlib drops empty parts,
so joining with the empty string yields the directory itself. -/
def pathJoin (dir name : String) : String :=
  if name = "" then dir else dir ++ "/" ++ name

/-- Split a path string on `/` (pathlib's decomposition into components). -/
def splitSlash : List Char → List (List Char)
  | [] => [[]]
  | c :: cs =>
    let r := splitSlash cs
    if c = '/' then [] :: r else (c :: r.headD []) :: r.tail

/-- The non-empty components of a path string. -/
def segsOf (p : String) : List String :=
  ((splitSlash p.data).filter (fun g => !g.isEmpty)).map String.mk

/-- Resolution of `.` and `..` components against the root, as performed by
`Path.resolve()` on an absolute path with no symlinks. -/
def resolveDots (segs : List String) : List String :=
  segs.foldl
    (fun acc seg =>
      if seg = "." then acc
      else if seg = ".." then acc.dropLast
      else acc ++ [seg]) []

/-- Render an absolute path from its components. -/
def renderAbs (segs : List String) : String :=
  if segs.isEmpty then "/" else segs.foldl (fun acc seg => acc ++ "/" ++ seg) ""

/-- `str(Path(p).resolve())` for an absolute `p`, with no symlinks involved. -/
def resolveStr (p : String) : String := renderAbs (resolveDots (segsOf p))

/-- Python's `s.startswith(t)`. -/
def pyStartswith (s t : String) : Bool := t.data.isPrefixOf s.data

namespace Umdrive

/-- `umdrive.py` lines 48-49: containment test by plain string prefix on the
resolved paths, with no separator-boundary check. -/
def is_within_directory (child parent : String) : Bool :=
  pyStartswith (resolveStr child) (resolveStr parent)

end Umdrive

namespace Teste

/-- `umDrive_Teste.py` lines 33-36: containment test that accepts equality or
a prefix extended by `os.sep`. -/
def is_within_directory (child parent : String) : Bool :=
  resolveStr child == resolveStr parent ||
    pyStartswith (resolveStr child) (resolveStr parent ++ "/")

end Teste

theorem splitSlash_noSlash {l : List Char} (h : '/' ∉ l) : splitSlash l = [l] := by
  induction l with
  | nil => rfl
  | cons c cs ih =>
    have hc : ¬c = '/' := fun hh => h (hh ▸ List.mem_cons_self c cs)
    have hcs : '/' ∉ cs := fun hh => h (List.mem_cons_of_mem _ hh)
    simp [splitSlash, hc, ih hcs]

theorem splitSlash_append_seg {seg : List Char} (hseg : '/' ∉ seg) (l : List Char) :
    splitSlash (seg ++ '/' :: l) = seg :: splitSlash l := by
  induction seg with
  | nil => simp [splitSlash]
  | cons c cs ih =>
    have hc : ¬c = '/' := fun hh => hseg (hh ▸ List.mem_cons_self c cs)
    have hcs : '/' ∉ cs := fun hh => hseg (List.mem_cons_of_mem _ hh)
    simp [splitSlash, hc, ih hcs]

theorem splitSlash_storage_root (l : List Char) :
    splitSlash ("/app/storage/".data ++ l) =
      [[], ['a', 'p', 'p'], ['s', 't', 'o', 'r', 'a', 'g', 'e']] ++ splitSlash l := by
  show splitSlash
      ('/' :: (['a', 'p', 'p'] ++ '/' :: (['s', 't', 'o', 'r', 'a', 'g', 'e'] ++ '/' :: l))) = _
  rw [show ∀ r, splitSlash ('/' :: r) = [] :: splitSlash r from fun r => by simp [splitSlash]]
  rw [splitSlash_append_seg (by decide), splitSlash_append_seg (by decide)]
  rfl

theorem string_mk_data (s : String) : String.mk s.data = s := rfl

theorem string_data_append (s t : String) : (s ++ t).data = s.data ++ t.data := rfl

theorem string_ne_nil_data {s : String} (h : s ≠ "") : s.data ≠ [] := by
  intro hd
  apply h
  have : String.mk s.data = String.mk [] := by rw [hd]
  simpa [string_mk_data] using this

theorem segsOf_join {s : String} (hs : '/' ∉ s.data) (hne : s ≠ "") :
    segsOf (pathJoin STORAGE_DIR s) = ["app", "storage", s] := by
  unfold pathJoin
  rw [if_neg hne]
  show segsOf ("/app/storage" ++ "/" ++ s) = _
  unfold segsOf
  have hdata : ("/app/storage" ++ "/" ++ s).data = "/app/storage/".data ++ s.data := rfl
  rw [hdata, splitSlash_storage_root, splitSlash_noSlash hs]
  have hsd : s.data.isEmpty = false := by
    cases hd : s.data with
    | nil => exact absurd hd (string_ne_nil_data hne)
    | cons a t => rfl
  simp [List.filter_cons, hsd, string_mk_data]

theorem resolveDots_three {a b s : String} (ha1 : a ≠ ".") (ha2 : a ≠ "..")
    (hb1 : b ≠ ".") (hb2 : b ≠ "..") (h1 : s ≠ ".") (h2 : s ≠ "..") :
    resolveDots [a, b, s] = [a, b, s] := by
  simp [resolveDots, ha1, ha2, hb1, hb2, h1, h2]

theorem isPrefixOf_append_self : ∀ (l t : List Char), l.isPrefixOf (l ++ t) = true := by
  intro l t
  induction l with
  | nil => simp [List.isPrefixOf]
  | cons c cs ih => simp [List.isPrefixOf, ih]

theorem resolveStr_join {s : String} (hs : '/' ∉ s.data) (h1 : s ≠ ".") (h2 : s ≠ "..")
    (hne : s ≠ "") : resolveStr (pathJoin STORAGE_DIR s) = "/app/storage" ++ "/" ++ s := by
  unfold resolveStr
  rw [segsOf_join hs hne, resolveDots_three (by decide) (by decide) (by decide) (by decide) h1 h2]
  show (if ([ "app", "storage", s] : List String).isEmpty then "/"
    else ["app", "storage", s].foldl (fun acc seg => acc ++ "/" ++ seg) "") = _
  rfl

theorem within_root_umdrive {s : String} (hs : '/' ∉ s.data) (h1 : s ≠ ".")
    (h2 : s ≠ "..") :
    Umdrive.is_within_directory (pathJoin STORAGE_DIR s) STORAGE_DIR = true := by
  by_cases hne : s = ""
  · subst hne
    decide
  · unfold Umdrive.is_within_directory
    rw [resolveStr_join hs h1 h2 hne]
    show pyStartswith ("/app/storage" ++ "/" ++ s) "/app/storage" = true
    unfold pyStartswith
    have hd : ("/app/storage" ++ "/" ++ s).data = "/app/storage".data ++ ('/' :: s.data) := rfl
    rw [hd]
    exact isPrefixOf_append_self "/app/storage".data ('/' :: s.data)

theorem within_root_teste {s : String} (hs : '/' ∉ s.data) (h1 : s ≠ ".")
    (h2 : s ≠ "..") :
    Teste.is_within_directory (pathJoin STORAGE_DIR s) STORAGE_DIR = true := by
  by_cases hne : s = ""
  · subst hne
    decide
  · unfold Teste.is_within_directory
    rw [resolveStr_join hs h1 h2 hne]
    have hroot : resolveStr STORAGE_DIR = "/app/storage" := by decide
    rw [hroot]
    apply Bool.or_eq_true_iff.mpr
    right
    unfold pyStartswith
    have hd : ("/app/storage" ++ "/" ++ s).data = "/app/storage/".data ++ s.data := rfl
    rw [hd]
    have hpd : ("/app/storage" ++ "/").data = "/app/storage/".data := rfl
    rw [hpd]
    exact isPrefixOf_append_self "/app/storage/".data s.data

/-- The double-quote character. -/
def quoteChar : Char := Char.ofNat 34

/-- The backslash character. -/
def backslashChar : Char := Char.ofNat 92

/-- The opening-brace character. -/
def lbraceChar : Char := Char.ofNat 123

/-- The closing-brace character. -/
def rbraceChar : Char := Char.ofNat 125

/-- Lower-case hexadecimal digit. -/
def hexDigit (n : Nat) : Char :=
  if n < 10 then Char.ofNat (48 + n) else Char.ofNat (87 + n)

/-- Four-digit lower-case hexadecimal rendering (for `\uXXXX` escapes). -/
def hex4 (n : Nat) : List Char :=
  [hexDigit (n / 4096 % 16), hexDigit (n / 256 % 16), hexDigit (n / 16 % 16), hexDigit (n % 16)]

/-- The escape of one character in a `json.dumps` string literal
(`ensure_ascii=True`): two-character escapes for the usual controls, quote
and backslash, `\uXXXX` for other controls and all non-ASCII code points,
surrogate pairs above U+FFFF. -/
def escChar (c : Char) : List Char :=
  if c = quoteChar then [backslashChar, quoteChar]
  else if c = backslashChar then [backslashChar, backslashChar]
  else if c = '\n' then [backslashChar, 'n']
  else if c = '\t' then [backslashChar, 't']
  else if c = '\r' then [backslashChar, 'r']
  else if c = Char.ofNat 8 then [backslashChar, 'b']
  else if c = Char.ofNat 12 then [backslashChar, 'f']
  else if c.toNat < 32 then backslashChar :: 'u' :: hex4 c.toNat
  else if c.toNat < 128 then [c]
  else if c.toNat < 65536 then backslashChar :: 'u' :: hex4 c.toNat
  else
    (backslashChar :: 'u' :: hex4 (55296 + (c.toNat - 65536) / 1024)) ++
      (backslashChar :: 'u' :: hex4 (56320 + (c.toNat - 65536) % 1024))

/-- A `json.dumps` string literal. -/
def jsonQuote (s : String) : String :=
  String.mk (quoteChar :: ((s.data.map escChar).flatten ++ [quoteChar]))

/-- The spaces of one indentation level under `indent=2`. -/
def indentSpaces (lvl : Nat) : String := String.mk (List.replicate (2 * lvl) ' ')

/-- `json.dumps(·, indent=2)` of a value at an indentation level (with an
indent, the default separators are `","` and `": "`; empty containers stay
on one line). The recursion is driven by a fuel argument so that it
reduces by iota; the fuel a caller passes (the value's `sizeOf`) strictly
exceeds the recursion depth, so the out-of-fuel branch is never taken. -/
def dumpsF : Nat → Nat → Json → String
  | 0, _, _ => ""
  | fuel + 1, lvl, j =>
    match j with
    | .null => "null"
    | .bool true => "true"
    | .bool false => "false"
    | .num n => toString n
    | .str s => jsonQuote s
    | .arr [] => "[]"
    | .arr xs =>
      "[\n" ++
        String.intercalate ",\n"
          (xs.map (fun x => indentSpaces (lvl + 1) ++ dumpsF fuel (lvl + 1) x)) ++
        "\n" ++ indentSpaces lvl ++ "]"
    | .obj [] => "\x7b\x7d"
    | .obj ms =>
      "\x7b\n" ++
        String.intercalate ",\n"
          (ms.map (fun m =>
            indentSpaces (lvl + 1) ++ jsonQuote m.1 ++ ": " ++ dumpsF fuel (lvl + 1) m.2)) ++
        "\n" ++ indentSpaces lvl ++ "\x7d"

mutual

/-- A structural size of a JSON value, used as fuel for `dumpsF`; it
strictly exceeds the value's nesting depth. -/
def jsonSize : Json → Nat
  | .null => 1
  | .bool _ => 1
  | .num _ => 1
  | .str _ => 1
  | .arr xs => 1 + jsonSizeList xs
  | .obj ms => 1 + jsonSizeMembers ms

/-- Sum of the sizes of a list of values. -/
def jsonSizeList : List Json → Nat
  | [] => 1
  | x :: xs => jsonSize x + jsonSizeList xs

/-- Sum of the sizes of an object's member values. -/
def jsonSizeMembers : List (String × Json) → Nat
  | [] => 1
  | m :: ms => jsonSize m.2 + jsonSizeMembers ms

end

/-- `json.dumps(j, indent=2)` at indentation level `lvl`. -/
def dumpsVal (lvl : Nat) (j : Json) : String := dumpsF (jsonSize j) lvl j

/-- The whitespace accepted between JSON tokens. -/
def jsonWs (c : Char) : Bool := c = ' ' || c = '\t' || c = '\n' || c = '\r'

/-- Skip inter-token whitespace. -/
def skipJsonWs : List Char → List Char
  | [] => []
  | c :: cs => if jsonWs c then skipJsonWs cs else c :: cs

/-- The value of a hexadecimal digit. -/
def hexVal (c : Char) : Option Nat :=
  if '0' ≤ c && c ≤ '9' then some (c.toNat - 48)
  else if 'a' ≤ c && c ≤ 'f' then some (c.toNat - 87)
  else if 'A' ≤ c && c ≤ 'F' then some (c.toNat - 55)
  else none

/-- Parse a JSON string body after the opening quote; `acc` holds the
characters read so far, reversed. `\uXXXX` escapes become the code point
directly (surrogate-pair recombination is outside the modelled subset). -/
def parseStringBody : List Char → List Char → Option (String × List Char)
  | _, [] => none
  | acc, c :: cs =>
    if c = quoteChar then some (String.mk acc.reverse, cs)
    else if c = backslashChar then
      match cs with
      | [] => none
      | e :: rest =>
        if e = quoteChar then parseStringBody (quoteChar :: acc) rest
        else if e = backslashChar then parseStringBody (backslashChar :: acc) rest
        else if e = '/' then parseStringBody ('/' :: acc) rest
        else if e = 'n' then parseStringBody ('\n' :: acc) rest
        else if e = 't' then parseStringBody ('\t' :: acc) rest
        else if e = 'r' then parseStringBody ('\r' :: acc) rest
        else if e = 'b' then parseStringBody (Char.ofNat 8 :: acc) rest
        else if e = 'f' then parseStringBody (Char.ofNat 12 :: acc) rest
        else if e = 'u' then
          match rest with
          | h1 :: h2 :: h3 :: h4 :: rest2 =>
            match hexVal h1, hexVal h2, hexVal h3, hexVal h4 with
            | some a, some b, some c2, some d =>
              parseStringBody (Char.ofNat (4096 * a + 256 * b + 16 * c2 + d) :: acc) rest2
            | _, _, _, _ => none
          | _ => none
        else none
    else if c.toNat < 32 then none
    else parseStringBody (c :: acc) cs

/-- Accumulate decimal digits. -/
def digitsVal (acc : Nat) : List Char → Nat × List Char
  | [] => (acc, [])
  | c :: cs =>
    if '0' ≤ c && c ≤ '9' then digitsVal (10 * acc + (c.toNat - 48)) cs else (acc, c :: cs)

/-- Parse an integer numeral; a `.`/`e`/`E` continuation (a float) is
outside the modelled subset and fails. -/
def parseIntNum (l : List Char) : Option (Json × List Char) :=
  let signed : Bool × List Char :=
    match l with
    | c :: cs => if c = '-' then (true, cs) else (false, l)
    | [] => (false, [])
  match signed.2 with
  | c :: _ =>
    if '0' ≤ c && c ≤ '9' then
      let dr := digitsVal 0 signed.2
      let val : Int := if signed.1 then -(dr.1 : Int) else (dr.1 : Int)
      match dr.2 with
      | r :: _ => if r = '.' || r = 'e' || r = 'E' then none else some (.num val, dr.2)
      | [] => some (.num val, dr.2)
    else none
  | [] => none

mutual

/-- Recursive-descent `json.loads` value parser; the fuel strictly exceeds
the remaining input length, so it never runs out on the inputs the
theorems evaluate. -/
def parseValue : Nat → List Char → Option (Json × List Char)
  | 0, _ => none
  | fuel + 1, l =>
    match skipJsonWs l with
    | [] => none
    | c :: rest =>
      if c = 'n' then
        if "ull".data.isPrefixOf rest then some (.null, rest.drop 3) else none
      else if c = 't' then
        if "rue".data.isPrefixOf rest then some (.bool true, rest.drop 3) else none
      else if c = 'f' then
        if "alse".data.isPrefixOf rest then some (.bool false, rest.drop 4) else none
      else if c = quoteChar then
        match parseStringBody [] rest with
        | some (s, r) => some (.str s, r)
        | none => none
      else if c = '[' then
        match skipJsonWs rest with
        | c2 :: r => if c2 = ']' then some (.arr [], r) else parseElems fuel rest []
        | [] => none
      else if c = lbraceChar then
        match skipJsonWs rest with
        | c2 :: r => if c2 = rbraceChar then some (.obj [], r) else parseMembers fuel rest []
        | [] => none
      else if c = '-' || ('0' ≤ c && c ≤ '9') then parseIntNum (c :: rest)
      else none

/-- Array elements after the opening bracket (`acc` reversed). -/
def parseElems : Nat → List Char → List Json → Option (Json × List Char)
  | 0, _, _ => none
  | fuel + 1, l, acc =>
    match parseValue fuel l with
    | some (v, r) =>
      match skipJsonWs r with
      | c :: r2 =>
        if c = ',' then parseElems fuel r2 (v :: acc)
        else if c = ']' then some (.arr (v :: acc).reverse, r2)
        else none
      | [] => none
    | none => none

/-- Object members after the opening brace (`acc` reversed). -/
def parseMembers : Nat → List Char → List (String × Json) → Option (Json × List Char)
  | 0, _, _ => none
  | fuel + 1, l, acc =>
    match skipJsonWs l with
    | c :: r =>
      if c = quoteChar then
        match parseStringBody [] r with
        | some (k, r1) =>
          match skipJsonWs r1 with
          | c2 :: r2 =>
            if c2 = ':' then
              match parseValue fuel r2 with
              | some (v, r3) =>
                match skipJsonWs r3 with
                | c3 :: r4 =>
                  if c3 = ',' then parseMembers fuel r4 ((k, v) :: acc)
                  else if c3 = rbraceChar then some (.obj ((k, v) :: acc).reverse, r4)
                  else none
                | [] => none
              | none => none
            else none
          | [] => none
        | none => none
      else none
    | [] => none

end

/-- `json.loads` over decoded text (see the module comment for the modelled
subset). -/
def parseJson (l : List Char) : Option Json :=
  match parseValue (l.length + 1) l with
  | some (v, r) => if (skipJsonWs r).isEmpty then some v else none
  | none => none

/-- `bytes.decode("utf-8")`, modelled on the ASCII range; multi-byte input
is outside the model and fails the decode (the caller's `except` then
yields the same observable result as for any undecodable input). -/
def decodeAscii (b : List Nat) : Option (List Char) :=
  if b.all (fun n => decide (n < 128)) then some (b.map Char.ofNat) else none

/-- One stored regular file: its byte content and its `st_mtime`. -/
structure StoredFile where
  content : List Nat
  mtime : Nat
  deriving DecidableEq

/-- The content of the reserved document `metadata.json`: either the
serialization of a JSON dict (every state `save_metadata` produces) or the
raw bytes of a client upload that was named `metadata.json` and therefore
overwrote the document. -/
inductive MdState where
  | doc (d : List (String × Json)) : MdState
  | raw (b : List Nat) : MdState

/-- The storage root: the regular files other than the reserved document,
plus the reserved document's content (created at startup, so it always
exists). -/
structure DriveState where
  files : List (String × StoredFile)
  md : MdState

/-- `load_metadata()` (`umdrive.py` lines 39-43): `json.loads` of the
document file, `{}` on any failure; a document written by `save_metadata`
loads back as the written dict (`json.dumps`/`json.loads` round-trip). -/
def load_metadata : MdState → Json
  | .doc d => .obj d
  | .raw b =>
    match (decodeAscii b).bind parseJson with
    | some j => j
    | none => .obj []

/-- `save_metadata(md)` (`umdrive.py` lines 45-46): rewrite the document. -/
def save_metadata (d : List (String × Json)) (st : DriveState) : DriveState :=
  { st with md := .doc d }

/-- The byte content of the document file (what downloading
`metadata.json` returns): `ensure_ascii=True` keeps the dump pure ASCII,
so UTF-8 encoding is the identity on code points. -/
def mdBytes : MdState → List Nat
  | .doc d => (dumpsVal 0 (.obj d)).data.map Char.toNat
  | .raw b => b

/-- `(STORAGE_DIR / safe).exists()`: joining the empty name yields the
storage directory itself, which exists; the reserved document always
exists; any other (single-segment) name exists iff a file is stored under
it. -/
def path_exists (st : DriveState) (safe : String) : Bool :=
  safe == "" || safe == METADATA_NAME || (alGet st.files safe).isSome

/-- Outcome of `upload_file` (`umdrive.py` lines 71-81). -/
inductive UploadResult where
  | noFilePart : UploadResult
  | emptyName : UploadResult
  | isADirectoryError : UploadResult
  | attrError : UploadResult
  | uploaded (filename : String) : UploadResult
  deriving DecidableEq

/-- `upload_file` (`umdrive.py` lines 71-81), for a request that does carry
a `file` part whose total size passed Flask's `MAX_CONTENT_LENGTH` gate.
An empty client name is rejected first; then the name is sanitized and
`f.save(str(STORAGE_DIR / filename))` runs: when the sanitized name is
empty the target is the storage directory itself and the save raises
`IsADirectoryError` (an unhandled 500); when it is `metadata.json` the save
overwrites the reserved document; afterwards `load_metadata`,
`md.setdefault(filename, {})` and `save_metadata` run —
`setdefault` on a non-dict raises `AttributeError` (unhandled 500). -/
def upload_file (rawName : String) (content : List Nat) (now : Nat)
    (st : DriveState) : UploadResult × DriveState :=
  if rawName = "" then (.emptyName, st)
  else
    let filename := secure_filename rawName
    if filename = "" then (.isADirectoryError, st)
    else
      let st1 :=
        if filename = METADATA_NAME then { st with md := .raw content }
        else { st with files := alSet st.files filename ⟨content, now⟩ }
      match load_metadata st1.md with
      | .obj d =>
        (.uploaded filename,
          save_metadata (alSetdefault d filename (.obj [])) st1)
      | _ => (.attrError, st1)

/-- Outcome of `download_file` (`umdrive.py` lines 83-89). -/
inductive DownloadResult where
  | notFound : DownloadResult
  | invalidPath : DownloadResult
  | ok (content : List Nat) : DownloadResult
  deriving DecidableEq

/-- `download_file` (`umdrive.py` lines 83-89): sanitize, check existence
(404), check containment (400), then `send_from_directory`; the latter
serves the file's bytes — for the empty sanitized name the joined path is
the storage directory, which is not a regular file, and 404 results; for
`metadata.json` the reserved document's bytes are served. -/
def download_file (rawName : String) (st : DriveState) : DownloadResult :=
  let safe := secure_filename rawName
  if !path_exists st safe then .notFound
  else if !Umdrive.is_within_directory (pathJoin STORAGE_DIR safe) STORAGE_DIR then
    .invalidPath
  else if safe = METADATA_NAME then .ok (mdBytes st.md)
  else
    match alGet st.files safe with
    | some f => .ok f.content
    | none => .notFound

/-- Outcome of `delete_file` (`umdrive.py` lines 91-97). -/
inductive DeleteResult where
  | notFound : DeleteResult
  | isADirectoryError : DeleteResult
  | attrError : DeleteResult
  | deleted (filename : String) : DeleteResult
  deriving DecidableEq

/-- `delete_file` (`umdrive.py` lines 91-97): sanitize, check existence
(404), `path.unlink()`, then drop the metadata record and save. Unlinking
the empty sanitized name targets the storage directory and raises
`IsADirectoryError` (unhandled 500). Unlinking `metadata.json` removes the
reserved document itself; the following `load_metadata` fails (file absent)
and yields `{}`, `pop` is a no-op, and `save_metadata` recreates an empty
document. `md.pop` on a non-dict raises `AttributeError` (unhandled 500)
after the file was already unlinked. -/
def delete_file (rawName : String) (st : DriveState) : DeleteResult × DriveState :=
  let safe := secure_filename rawName
  if !path_exists st safe then (.notFound, st)
  else if safe = "" then (.isADirectoryError, st)
  else if safe = METADATA_NAME then (.deleted safe, { st with md := .doc [] })
  else
    let files1 := alErase st.files safe
    match load_metadata st.md with
    | .obj d => (.deleted safe, { files := files1, md := .doc (alErase d safe) })
    | _ => (.attrError, { st with files := files1 })

/-- Outcome of the GET branch of `metadata` (`umdrive.py` lines 99-103). -/
inductive MetaGetResult where
  | ok (body : Json) : MetaGetResult
  | attrError : MetaGetResult

/-- GET branch of `metadata` (`umdrive.py` lines 99-103):
`md.get(safe_name, {})`; `get` on a non-dict document raises
`AttributeError` (unhandled 500). -/
def metadata_get (rawName : String) (st : DriveState) : MetaGetResult :=
  let safe := secure_filename rawName
  match load_metadata st.md with
  | .obj d => .ok ((alGet d safe).getD (.obj []))
  | _ => .attrError

/-- Outcome of the POST branch of `metadata` (`umdrive.py` lines 99-107). -/
inductive MetaPostResult where
  | badRequest : MetaPostResult
  | typeError : MetaPostResult
  | updated (filename : String) : MetaPostResult
  deriving DecidableEq

/-- POST branch of `metadata` (`umdrive.py` lines 99-107): the parsed
request body is checked with `isinstance(data, dict)` (400 on failure,
before any write); then `md[safe_name] = data; save_metadata(md)` —
item assignment on a non-dict document raises `TypeError` (unhandled
500). -/
def metadata_post (rawName : String) (data : Json) (st : DriveState) :
    MetaPostResult × DriveState :=
  let safe := secure_filename rawName
  let mdv := load_metadata st.md
  if !data.isObj then (.badRequest, st)
  else
    match mdv with
    | .obj d => (.updated safe, save_metadata (alSet d safe data) st)
    | _ => (.typeError, st)

/-- One entry of the `list_files` response (`umdrive.py` lines 51-59). -/
structure FileInfo where
  name : String
  size : Nat
  mtime : Nat
  download_url : String
  metadata : Json

/-- `file_info(path)` (`umdrive.py` lines 51-59), with `d` the dict its
`load_metadata()` call returns. -/
def file_info (d : List (String × Json)) (name : String) (f : StoredFile) : FileInfo :=
  { name := name
    size := f.content.length
    mtime := f.mtime
    download_url := "/api/files/" ++ name ++ "/download"
    metadata := (alGet d name).getD (.obj []) }

/-- The comparison `sorted(..., key=lambda x: x['name'].lower())` sorts by. -/
def fileLe (a b : FileInfo) : Prop := a.name.toLower ≤ b.name.toLower

instance : DecidableRel fileLe := fun a b =>
  inferInstanceAs (Decidable (a.name.toLower ≤ b.name.toLower))

instance : IsTotal FileInfo fileLe := ⟨fun a b => le_total a.name.toLower b.name.toLower⟩

instance : IsTrans FileInfo fileLe := ⟨fun _ _ _ => le_trans⟩

/-- Outcome of `list_files` (`umdrive.py` lines 66-69). -/
inductive ListResult where
  | ok (entries : List FileInfo) : ListResult
  | attrError : ListResult

/-- `list_files` (`umdrive.py` lines 66-69): every regular file of the
storage root except the reserved document, each joined with its record by
`file_info`, sorted stably ascending by lower-cased name (Python's stable
`sorted` is modelled by the stable insertion sort). `file_info` — and with
it the `load_metadata().get` that raises `AttributeError` on a non-dict
document — only runs when at least one entry survives the filter. -/
def list_files (st : DriveState) : ListResult :=
  let entries := st.files.filter (fun p => p.1 != METADATA_NAME)
  match entries, load_metadata st.md with
  | [], _ => .ok []
  | es, .obj d => .ok (List.insertionSort fileLe (es.map (fun p => file_info d p.1 p.2)))
  | _, _ => .attrError

/-- `app.config['MAX_CONTENT_LENGTH']` (`umdrive.py` line 36): Flask's
request-size gate, enforced by the transport before the route body runs. -/
def MAX_CONTENT_LENGTH : Nat := 1000 * 1024 * 1024

theorem upload_step (raw : String) (content : List Nat) (now : Nat) (st : DriveState)
    (d : List (String × Json)) (hmd : load_metadata st.md = .obj d)
    (hraw : raw ≠ "") (hfn : secure_filename raw ≠ "")
    (hres : secure_filename raw ≠ METADATA_NAME) :
    upload_file raw content now st =
      (.uploaded (secure_filename raw),
        { files := alSet st.files (secure_filename raw) ⟨content, now⟩,
          md := .doc (alSetdefault d (secure_filename raw) (.obj [])) }) := by
  simp [upload_file, hraw, hfn, hres, hmd, save_metadata]

theorem delete_step (raw : String) (st : DriveState) (d : List (String × Json))
    (hmd : load_metadata st.md = .obj d)
    (hfn : secure_filename raw ≠ "") (hres : secure_filename raw ≠ METADATA_NAME)
    (hex : (alGet st.files (secure_filename raw)).isSome = true) :
    delete_file raw st =
      (.deleted (secure_filename raw),
        { files := alErase st.files (secure_filename raw),
          md := .doc (alErase d (secure_filename raw)) }) := by
  simp [delete_file, path_exists, hfn, hres, hex, hmd]

theorem download_ok (raw : String) (st : DriveState) (f : StoredFile)
    (hres : secure_filename raw ≠ METADATA_NAME)
    (hget : alGet st.files (secure_filename raw) = some f) :
    download_file raw st = .ok f.content := by
  have hwithin := within_root_umdrive (secure_filename_no_slash raw)
    (secure_filename_ne_dot raw) (secure_filename_ne_dotdot raw)
  simp [download_file, path_exists, hres, hget, hwithin]

theorem download_notFound (raw : String) (st : DriveState)
    (hfn : secure_filename raw ≠ "") (hres : secure_filename raw ≠ METADATA_NAME)
    (hget : alGet st.files (secure_filename raw) = none) :
    download_file raw st = .notFound := by
  simp [download_file, path_exists, hfn, hres, hget]

/-- C1: for every client-supplied file name — including crafted names with
`..`, `/` or absolute components — the sanitized name `upload_file` writes
to and `download_file` reads from is a single safe path segment: it
contains no separator and is not a dot-segment, the join with the storage
root passes both containment checks, and (when the segment is non-empty)
the joined path's resolved components are exactly the storage root's
followed by that one segment, so neither operation ever touches a path
outside the storage root. -/
theorem upload_download_confined (raw : String) :
    '/' ∉ (secure_filename raw).data ∧
    secure_filename raw ≠ "." ∧ secure_filename raw ≠ ".." ∧
    Umdrive.is_within_directory (pathJoin STORAGE_DIR (secure_filename raw))
      STORAGE_DIR = true ∧
    Teste.is_within_directory (pathJoin STORAGE_DIR (secure_filename raw))
      STORAGE_DIR = true ∧
    (secure_filename raw ≠ "" →
      resolveDots (segsOf (pathJoin STORAGE_DIR (secure_filename raw))) =
        ["app", "storage", secure_filename raw]) := by
  refine ⟨secure_filename_no_slash raw, secure_filename_ne_dot raw,
    secure_filename_ne_dotdot raw, ?_, ?_, ?_⟩
  · exact within_root_umdrive (secure_filename_no_slash raw)
      (secure_filename_ne_dot raw) (secure_filename_ne_dotdot raw)
  · exact within_root_teste (secure_filename_no_slash raw)
      (secure_filename_ne_dot raw) (secure_filename_ne_dotdot raw)
  · intro hne
    rw [segsOf_join (secure_filename_no_slash raw) hne]
    exact resolveDots_three (by decide) (by decide) (by decide) (by decide)
      (secure_filename_ne_dot raw) (secure_filename_ne_dotdot raw)

/-- C1, evaluated at the crafted traversal name of the spec. -/
theorem upload_download_confined_witness :
    '/' ∉ (secure_filename "../../etc/passwd").data ∧
    secure_filename "../../etc/passwd" ≠ "." ∧
    secure_filename "../../etc/passwd" ≠ ".." ∧
    Umdrive.is_within_directory
      (pathJoin STORAGE_DIR (secure_filename "../../etc/passwd")) STORAGE_DIR = true ∧
    Teste.is_within_directory
      (pathJoin STORAGE_DIR (secure_filename "../../etc/passwd")) STORAGE_DIR = true ∧
    (secure_filename "../../etc/passwd" ≠ "" →
      resolveDots (segsOf (pathJoin STORAGE_DIR (secure_filename "../../etc/passwd"))) =
        ["app", "storage", secure_filename "../../etc/passwd"]) :=
  upload_download_confined "../../etc/passwd"

/-- C2: at the sibling directory `/app/storage2` of the root
`/app/storage`, the `umdrive.py` containment check answers `true` (plain
string prefix, no separator boundary), while the separator-aware variant of
`umDrive_Teste.py` answers `false`; the claimed only-if behavior fails for
the `umdrive.py` check. -/
theorem is_within_directory_sibling_divergence :
    Umdrive.is_within_directory "/app/storage2" "/app/storage" = true ∧
    Teste.is_within_directory "/app/storage2" "/app/storage" = false := by decide

/-- C3 counterexample: `metadata.json` is a valid (non-empty after
sanitization) name, yet uploading under it overwrites the reserved
document, whose content `save_metadata` then rewrites; the subsequent
download returns the serialized metadata document, not the uploaded
byte `#`. -/
theorem put_get_metadata_json_cex :
    secure_filename "metadata.json" = "metadata.json" ∧
    (upload_file "metadata.json" [35] 0 ⟨[], .doc []⟩).1 =
      UploadResult.uploaded "metadata.json" ∧
    download_file "metadata.json" (upload_file "metadata.json" [35] 0 ⟨[], .doc []⟩).2 ≠
      DownloadResult.ok [35] := by
  refine ⟨rfl, rfl, by decide⟩

/-- C3 (amended): for every name that is valid (non-empty after
sanitization) and is not the reserved document name `metadata.json`, and
every content within the size limit, `put` then `get` returns exactly the
uploaded bytes, from any state whose metadata document loads as a dict. -/
theorem put_get_roundtrip (raw : String) (content : List Nat) (now : Nat)
    (st : DriveState) (d : List (String × Json))
    (hmd : load_metadata st.md = .obj d)
    (hraw : raw ≠ "") (hfn : secure_filename raw ≠ "")
    (hres : secure_filename raw ≠ METADATA_NAME)
    (_hsize : content.length ≤ MAX_CONTENT_LENGTH) :
    (upload_file raw content now st).1 = .uploaded (secure_filename raw) ∧
    download_file raw (upload_file raw content now st).2 = .ok content := by
  rw [upload_step raw content now st d hmd hraw hfn hres]
  exact ⟨rfl, download_ok raw _ ⟨content, now⟩ hres (alGet_alSet_self _ _ _)⟩

/-- C3 witness: the amended round-trip evaluated at the name
`report.pdf`, content of two bytes, on the freshly initialized state. -/
theorem put_get_roundtrip_witness :
    (load_metadata (MdState.doc []) = Json.obj [] ∧
      ("report.pdf" : String) ≠ "" ∧ secure_filename "report.pdf" ≠ "" ∧
      secure_filename "report.pdf" ≠ METADATA_NAME ∧
      ([7, 8] : List Nat).length ≤ MAX_CONTENT_LENGTH) ∧
    (upload_file "report.pdf" [7, 8] 0 ⟨[], .doc []⟩).1 =
      .uploaded (secure_filename "report.pdf") ∧
    download_file "report.pdf" (upload_file "report.pdf" [7, 8] 0 ⟨[], .doc []⟩).2 =
      .ok [7, 8] :=
  ⟨⟨rfl, by decide, by decide, by decide, by decide⟩,
    put_get_roundtrip "report.pdf" [7, 8] 0 ⟨[], .doc []⟩ [] rfl (by decide) (by decide)
      (by decide) (by decide)⟩

/-- C4 counterexample: after a successful `put` and `delete` of the (valid)
name `metadata.json`, the subsequent `get` does not fail with not-found —
the delete recreated an empty reserved document, and the download serves
its bytes with status 200. -/
theorem put_delete_get_metadata_json_cex :
    (delete_file "metadata.json"
        (upload_file "metadata.json" [35] 0 ⟨[], .doc []⟩).2).1 =
      DeleteResult.deleted "metadata.json" ∧
    download_file "metadata.json"
        (delete_file "metadata.json"
          (upload_file "metadata.json" [35] 0 ⟨[], .doc []⟩).2).2 ≠
      DownloadResult.notFound := by
  refine ⟨rfl, by decide⟩

/-- C4 (amended): for every name that is valid (non-empty after
sanitization) and is not the reserved document name `metadata.json`, after
`put` then `delete`, a subsequent `get` fails with not-found and
`getRecord` returns the empty object: the file and its record are both
gone. -/
theorem put_delete_get (raw : String) (content : List Nat) (now : Nat)
    (st : DriveState) (d : List (String × Json))
    (hmd : load_metadata st.md = .obj d)
    (hraw : raw ≠ "") (hfn : secure_filename raw ≠ "")
    (hres : secure_filename raw ≠ METADATA_NAME) :
    (delete_file raw (upload_file raw content now st).2).1 =
      .deleted (secure_filename raw) ∧
    download_file raw (delete_file raw (upload_file raw content now st).2).2 =
      .notFound ∧
    metadata_get raw (delete_file raw (upload_file raw content now st).2).2 =
      .ok (.obj []) := by
  have h1 := upload_step raw content now st d hmd hraw hfn hres
  have h2 := delete_step raw
    { files := alSet st.files (secure_filename raw) ⟨content, now⟩,
      md := .doc (alSetdefault d (secure_filename raw) (.obj [])) }
    (alSetdefault d (secure_filename raw) (.obj [])) rfl hfn hres
    (by simp [alGet_alSet_self])
  rw [h1, h2]
  refine ⟨rfl, ?_, ?_⟩
  · exact download_notFound raw _ hfn hres (alGet_alErase_self _ _)
  · simp [metadata_get, load_metadata, alGet_alErase_self]

/-- C4 witness: the amended statement evaluated at the name `report.pdf`
on the freshly initialized state. -/
theorem put_delete_get_witness :
    (load_metadata (MdState.doc []) = Json.obj [] ∧
      ("report.pdf" : String) ≠ "" ∧ secure_filename "report.pdf" ≠ "" ∧
      secure_filename "report.pdf" ≠ METADATA_NAME) ∧
    (delete_file "report.pdf" (upload_file "report.pdf" [7, 8] 0 ⟨[], .doc []⟩).2).1 =
      .deleted (secure_filename "report.pdf") ∧
    download_file "report.pdf"
        (delete_file "report.pdf" (upload_file "report.pdf" [7, 8] 0 ⟨[], .doc []⟩).2).2 =
      .notFound ∧
    metadata_get "report.pdf"
        (delete_file "report.pdf" (upload_file "report.pdf" [7, 8] 0 ⟨[], .doc []⟩).2).2 =
      .ok (.obj []) :=
  ⟨⟨rfl, by decide, by decide, by decide⟩,
    put_delete_get "report.pdf" [7, 8] 0 ⟨[], .doc []⟩ [] rfl (by decide) (by decide)
      (by decide)⟩

/-- C5: for every name and every JSON object (the empty object included),
`setRecord` then `getRecord` returns exactly the stored object, from any
state whose metadata document loads as a dict. -/
theorem set_get_record_roundtrip (raw : String) (kvs : List (String × Json))
    (st : DriveState) (d : List (String × Json))
    (hmd : load_metadata st.md = .obj d) :
    (metadata_post raw (.obj kvs) st).1 = .updated (secure_filename raw) ∧
    metadata_get raw (metadata_post raw (.obj kvs) st).2 = .ok (.obj kvs) := by
  have hpost : metadata_post raw (.obj kvs) st =
      (.updated (secure_filename raw),
        save_metadata (alSet d (secure_filename raw) (.obj kvs)) st) := by
    simp [metadata_post, hmd, Json.isObj]
  rw [hpost]
  exact ⟨rfl, by simp [metadata_get, save_metadata, load_metadata, alGet_alSet_self]⟩

/-- C5 witness: the round-trip evaluated at the spec's example record. -/
theorem set_get_record_roundtrip_witness :
    load_metadata (MdState.doc []) = Json.obj [] ∧
    (metadata_post "report.pdf" (.obj [("tag", .str "final")]) ⟨[], .doc []⟩).1 =
      .updated (secure_filename "report.pdf") ∧
    metadata_get "report.pdf"
        (metadata_post "report.pdf" (.obj [("tag", .str "final")]) ⟨[], .doc []⟩).2 =
      .ok (.obj [("tag", .str "final")]) :=
  ⟨rfl, set_get_record_roundtrip "report.pdf" [("tag", .str "final")] ⟨[], .doc []⟩ [] rfl⟩

/-- C6: for every name and every JSON value that is not an object (arrays
and scalars), `setRecord` fails with the invalid-metadata client error and
the state — the stored document included — is completely unchanged. -/
theorem set_record_non_object_rejected (raw : String) (data : Json) (st : DriveState)
    (hobj : data.isObj = false) :
    metadata_post raw data st = (.badRequest, st) := by
  simp [metadata_post, hobj]

/-- C6 witness: the rejection evaluated at the spec's example `[1,2,3]`. -/
theorem set_record_non_object_rejected_witness :
    (Json.arr [.num 1, .num 2, .num 3]).isObj = false ∧
    metadata_post "report.pdf" (.arr [.num 1, .num 2, .num 3]) ⟨[], .doc []⟩ =
      (.badRequest, ⟨[], .doc []⟩) :=
  ⟨rfl, set_record_non_object_rejected "report.pdf" _ _ rfl⟩

/-- C7: when the metadata document loads as a dict, `list_files` succeeds
and returns exactly the stored regular files other than the reserved
document — each joined through `file_info` with its record, defaulting to
the empty object — sorted ascending by case-insensitive name. -/
theorem list_files_spec (st : DriveState) (d : List (String × Json))
    (hmd : load_metadata st.md = .obj d) :
    ∃ l, list_files st = .ok l ∧
      List.Perm l ((st.files.filter (fun p => p.1 != METADATA_NAME)).map
        (fun p => file_info d p.1 p.2)) ∧
      List.Sorted fileLe l ∧
      ∀ e ∈ l, e.metadata = (alGet d e.name).getD (.obj []) := by
  cases hent : st.files.filter (fun p => p.1 != METADATA_NAME) with
  | nil =>
    refine ⟨[], ?_, by simp, List.sorted_nil, by simp⟩
    unfold list_files
    rw [hent, hmd]
  | cons p ps =>
    refine ⟨List.insertionSort fileLe ((p :: ps).map (fun q => file_info d q.1 q.2)),
      ?_, ?_, List.sorted_insertionSort fileLe _, ?_⟩
    · unfold list_files
      rw [hent, hmd]
    · exact List.perm_insertionSort fileLe _
    · intro e he
      rw [List.mem_insertionSort] at he
      obtain ⟨q, hq, rfl⟩ := List.mem_map.mp he
      rfl

/-- C7 witness: the listing evaluated on a state with two stored files
whose case-insensitive order differs from the byte order. -/
theorem list_files_spec_witness :
    load_metadata (MdState.doc []) = Json.obj [] ∧
    ∃ l,
      list_files ⟨[("b.txt", ⟨[1, 2], 5⟩), ("A.txt", ⟨[3], 6⟩)], .doc []⟩ = .ok l ∧
      List.Perm l
        (((⟨[("b.txt", ⟨[1, 2], 5⟩), ("A.txt", ⟨[3], 6⟩)], .doc []⟩ :
            DriveState).files.filter (fun p => p.1 != METADATA_NAME)).map
          (fun p => file_info [] p.1 p.2)) ∧
      List.Sorted fileLe l ∧
      ∀ e ∈ l, e.metadata = (alGet [] e.name).getD (.obj []) :=
  ⟨rfl, list_files_spec ⟨[("b.txt", ⟨[1, 2], 5⟩), ("A.txt", ⟨[3], 6⟩)], .doc []⟩ [] rfl⟩

/-- C8: the crafted name `..` passes the code's `f.filename == ''` check
but sanitizes to the empty string; `upload_file` then attempts
`f.save(str(STORAGE_DIR / ''))` — a write whose target is the storage
directory itself — which raises `IsADirectoryError`, an unhandled 500
raised during filesystem access rather than an `InvalidNameError` raised
before it; no file and no metadata entry are created. -/
theorem upload_empty_sanitized_is_dir_error :
    secure_filename ".." = "" ∧
    ∀ (content : List Nat) (now : Nat) (st : DriveState),
      upload_file ".." content now st = (.isADirectoryError, st) := by
  have h1 : (".." : String) ≠ "" := by decide
  refine ⟨rfl, fun content now st => ?_⟩
  simp [upload_file, h1, show secure_filename ".." = "" from rfl]

/-- The bodies of two metadata POST requests (`umdrive.py` lines 99-107)
interleaved under the schedule load-A, load-B, save-A, save-B. The handlers
acquire no lock around `load_metadata`/`save_metadata`, so concurrent
workers can both read the document before either writes it back; each
request still runs its complete body. -/
def setRecord_interleaved (ka : String) (xa : Json) (kb : String) (xb : Json)
    (st : DriveState) : MetaPostResult × MetaPostResult × DriveState :=
  let mdA := load_metadata st.md
  let mdB := load_metadata st.md
  let stepA : MetaPostResult × DriveState :=
    if !xa.isObj then (.badRequest, st)
    else
      match mdA with
      | .obj da =>
        (.updated (secure_filename ka),
          save_metadata (alSet da (secure_filename ka) xa) st)
      | _ => (.typeError, st)
  let stepB : MetaPostResult × DriveState :=
    if !xb.isObj then (.badRequest, stepA.2)
    else
      match mdB with
      | .obj db =>
        (.updated (secure_filename kb),
          save_metadata (alSet db (secure_filename kb) xb) stepA.2)
      | _ => (.typeError, stepA.2)
  (stepA.1, stepB.1, stepB.2)

/-- C9: under the unsynchronized interleaving both `setRecord` requests
complete successfully, yet afterwards the record stored for `a` is the
empty default — request B's whole-document save overwrote request A's
update (lost update), because no mutation takes an exclusive lock around
its read-modify-write cycle. -/
theorem setRecord_concurrent_lost_update :
    (setRecord_interleaved "a" (.obj [("k", .str "v")]) "b" (.obj [])
        ⟨[], .doc []⟩).1 = .updated "a" ∧
    (setRecord_interleaved "a" (.obj [("k", .str "v")]) "b" (.obj [])
        ⟨[], .doc []⟩).2.1 = .updated "b" ∧
    metadata_get "a"
        (setRecord_interleaved "a" (.obj [("k", .str "v")]) "b" (.obj [])
          ⟨[], .doc []⟩).2.2 = .ok (.obj []) :=
  ⟨rfl, rfl, rfl⟩

/-- C10: re-uploading a name that already has a metadata record overwrites
the stored bytes but leaves the metadata document — including that record —
entirely unchanged: upload's `setdefault` inserts only when no record
exists. -/
theorem upload_preserves_existing_record (raw : String) (content : List Nat)
    (now : Nat) (st : DriveState) (d : List (String × Json)) (v : Json)
    (hmd : load_metadata st.md = .obj d)
    (hraw : raw ≠ "") (hfn : secure_filename raw ≠ "")
    (hres : secure_filename raw ≠ METADATA_NAME)
    (hv : alGet d (secure_filename raw) = some v) :
    (upload_file raw content now st).1 = .uploaded (secure_filename raw) ∧
    alGet (upload_file raw content now st).2.files (secure_filename raw) =
      some ⟨content, now⟩ ∧
    load_metadata (upload_file raw content now st).2.md = .obj d := by
  rw [upload_step raw content now st d hmd hraw hfn hres]
  refine ⟨rfl, alGet_alSet_self _ _ _, ?_⟩
  simp [load_metadata, alSetdefault, hv]

/-- C10 witness: re-upload of `a.txt` on a state whose document already
carries a non-empty record for it. -/
theorem upload_preserves_existing_record_witness :
    (load_metadata (MdState.doc [("a.txt", .obj [("x", .num 1)])]) =
        Json.obj [("a.txt", .obj [("x", .num 1)])] ∧
      ("a.txt" : String) ≠ "" ∧ secure_filename "a.txt" ≠ "" ∧
      secure_filename "a.txt" ≠ METADATA_NAME ∧
      alGet [("a.txt", Json.obj [("x", Json.num 1)])] (secure_filename "a.txt") =
        some (.obj [("x", .num 1)])) ∧
    (upload_file "a.txt" [9] 3
        ⟨[("a.txt", ⟨[1], 0⟩)], .doc [("a.txt", .obj [("x", .num 1)])]⟩).1 =
      .uploaded (secure_filename "a.txt") ∧
    alGet (upload_file "a.txt" [9] 3
        ⟨[("a.txt", ⟨[1], 0⟩)], .doc [("a.txt", .obj [("x", .num 1)])]⟩).2.files
      (secure_filename "a.txt") = some ⟨[9], 3⟩ ∧
    load_metadata (upload_file "a.txt" [9] 3
        ⟨[("a.txt", ⟨[1], 0⟩)], .doc [("a.txt", .obj [("x", .num 1)])]⟩).2.md =
      .obj [("a.txt", .obj [("x", .num 1)])] :=
  ⟨⟨rfl, by decide, by decide, by decide, rfl⟩,
    upload_preserves_existing_record "a.txt" [9] 3
      ⟨[("a.txt", ⟨[1], 0⟩)], .doc [("a.txt", .obj [("x", .num 1)])]⟩
      [("a.txt", .obj [("x", .num 1)])] (.obj [("x", .num 1)]) rfl (by decide)
      (by decide) (by decide) rfl⟩
